import Mathlib

/-!
Shallow embedding of the BLE file-transfer server of the PicoCalc repository
(`src/MicroPython/sd/py_scripts/PicoBLE.py`) together with the client-side
reassembly step of `src/MicroPython/Client_Code/PicoCalc_Client_BLE.py`.

MicroPython strings passed over the protocol are modelled as validated UTF-8
byte sequences (`Bytes = List Nat`).  All the string operations the server
performs on paths (`split('/')`, `'/'.join`, `startswith`, `lstrip('/')`,
`'/' in path`) only examine the ASCII byte 0x2F, which UTF-8 never produces
inside a multi-byte sequence, so byte-level versions of these operations are
observationally identical to MicroPython's code-point versions.
`bytes.decode('utf-8')` (which raises `UnicodeError` on invalid input when
MicroPython's unicode check is compiled in, as on the rp2 port) is modelled as
the validation `utf8Check`, a transcription of MicroPython's `utf8_check`
routine; on success the decoded string re-encodes to the same bytes.

The filesystem under `/sd` is modelled as an association list from full path
strings to nodes (`FsNode.dir`, or `FsNode.file` holding the content bytes);
`os.stat` is a lookup, `os.mkdir` inserts a directory when the entry is absent
and its parent exists, `os.remove` deletes a file entry, `open(path, "wb")`
truncates/creates a file entry, `os.rename` moves an entry.  The BLE transport
(`ble.gatts_notify`) is taken to succeed everywhere in the main model; for the
retry/backoff claims a transport-parameterised sender is embedded separately,
with the transport given as a predicate on the global attempt counter.
-/

namespace PicoBLE

/-- Byte sequences; each element is a byte value (0..255). -/
abbrev Bytes := List Nat

/-- Bytes of a Lean string literal (used only for ASCII literals, where
UTF-8 encoding is the identity on code points). -/
def strBytes (s : String) : Bytes := s.data.map Char.toNat

/-- Python `s.split('/')` at byte level: `""` yields `[""]`, separators at the
ends and doubled separators yield empty segments. -/
def pySplitSlash : Bytes → List Bytes
  | [] => [[]]
  | b :: t =>
    if b = 47 then [] :: pySplitSlash t
    else
      match pySplitSlash t with
      | [] => [[b]]
      | s :: rest => (b :: s) :: rest

/-- Python `'/'.join(parts)` at byte level. -/
def pyJoinSlash : List Bytes → Bytes
  | [] => []
  | [x] => x
  | x :: y :: rest => x ++ 47 :: pyJoinSlash (y :: rest)

/-- Python `list[:-1]` on the list of segments. -/
def dropLastSeg : List Bytes → List Bytes
  | [] => []
  | [_] => []
  | x :: y :: rest => x :: dropLastSeg (y :: rest)

/-- Python `list[-1]` on a (non-empty) list of segments. -/
def lastSeg : List Bytes → Bytes
  | [] => []
  | [x] => x
  | _ :: y :: rest => lastSeg (y :: rest)

/-- Python `s.startswith(pre)` at byte level. -/
def startsWithB : Bytes → Bytes → Bool
  | _, [] => true
  | [], _ :: _ => false
  | a :: l, b :: p => a == b && startsWithB l p

/-- Python `'/' in s` at byte level. -/
def hasSlash : Bytes → Bool
  | [] => false
  | b :: t => (b == 47) || hasSlash t

/-- Python `s.lstrip('/')` at byte level. -/
def pyLstripSlash (l : Bytes) : Bytes := l.dropWhile (fun b => b == 47)

/-- Concatenation of a list of byte chunks (the client accumulates arriving
notification payloads by `response_buffer.extend(data)`). -/
def joinAll : List Bytes → Bytes
  | [] => []
  | x :: r => x ++ joinAll r

/-- MicroPython's `utf8_check` (run by `bytes.decode('utf-8')`): lead bytes
below 0x80 stand alone, 0xC0..0xDF take one continuation byte, 0xE0..0xEF two,
0xF0..0xF7 three; bytes 0x80..0xBF may appear only as continuations and bytes
0xF8 and above never.  `need` counts outstanding continuation bytes. -/
def utf8CheckAux : Bytes → Nat → Bool
  | [], need => need == 0
  | b :: t, 0 =>
    if b < 0x80 then utf8CheckAux t 0
    else if b < 0xC0 then false
    else if b < 0xE0 then utf8CheckAux t 1
    else if b < 0xF0 then utf8CheckAux t 2
    else if b < 0xF8 then utf8CheckAux t 3
    else false
  | b :: t, need + 1 =>
    if 0x80 ≤ b ∧ b < 0xC0 then utf8CheckAux t need else false

/-- Whether a byte buffer decodes as UTF-8 (i.e. `data.decode('utf-8')` does
not raise). -/
def utf8Check (l : Bytes) : Bool := utf8CheckAux l 0

/-- `struct.pack("<I", n)`: four little-endian bytes. -/
def le32 (n : Nat) : Bytes :=
  [n % 256, n / 256 % 256, n / 65536 % 256, n / 16777216 % 256]

/-! ## Filesystem model -/

/-- A filesystem node: a regular file with its content, or a directory. -/
inductive FsNode where
  | file : Bytes → FsNode
  | dir : FsNode
  deriving DecidableEq

/-- The filesystem: an association list from full paths to nodes. -/
abbrev Fs := List (Bytes × FsNode)

/-- `os.stat(p)` modulo the information used by the server: the node at `p`,
or `none` when `stat` raises `OSError`. -/
def fsLookup : Fs → Bytes → Option FsNode
  | [], _ => none
  | (k, n) :: t, p => if k = p then some n else fsLookup t p

/-- Remove the entry at a path. -/
def fsRemoveKey (fs : Fs) (p : Bytes) : Fs := fs.filter (fun e => ¬e.1 = p)

/-- Set the node at a path (used by `open(..., "wb")` and by writes). -/
def fsSet (fs : Fs) (p : Bytes) (n : FsNode) : Fs := (p, n) :: fsRemoveKey fs p

/-- Python `'/'.join(p.split('/')[:-1])`: the directory part of a path. -/
def dirnameB (p : Bytes) : Bytes := pyJoinSlash (dropLastSeg (pySplitSlash p))

/-- `os.mkdir(p)`: fails (raises) when the entry already exists or the parent
is not an existing directory; the empty parent string stands for the
filesystem root, which always exists. -/
def osMkdir (fs : Fs) (p : Bytes) : Option Fs :=
  if (fsLookup fs p).isSome then none
  else if dirnameB p = [] ∨ fsLookup fs (dirnameB p) = some FsNode.dir then
    some ((p, FsNode.dir) :: fs)
  else none

/-- `os.remove(p)`: succeeds only on an existing regular file. -/
def osRemove (fs : Fs) (p : Bytes) : Option Fs :=
  match fsLookup fs p with
  | some (FsNode.file _) => some (fsRemoveKey fs p)
  | _ => none

/-- `os.rename(old, new)`: requires `old` to exist and `new` to be absent
(the server removes `new` first precisely because the VFS refuses to
overwrite). -/
def osRename (fs : Fs) (old new : Bytes) : Option Fs :=
  match fsLookup fs old, fsLookup fs new with
  | some n, none => some (fsSet (fsRemoveKey fs old) new n)
  | _, _ => none

/-- `open(p, "wb")`: truncates or creates the file entry; fails when `p` is a
directory or the parent directory is missing. -/
def pyOpenWb (fs : Fs) (p : Bytes) : Option Fs :=
  match fsLookup fs p with
  | some FsNode.dir => none
  | _ =>
    if dirnameB p = [] ∨ fsLookup fs (dirnameB p) = some FsNode.dir then
      some (fsSet fs p (FsNode.file []))
    else none

/-- A write through the open handle followed by `flush()`: appends to the
file's stored content. -/
def fsAppendFile (fs : Fs) (p : Bytes) (data : Bytes) : Fs :=
  match fsLookup fs p with
  | some (FsNode.file c) => fsSet fs p (FsNode.file (c ++ data))
  | _ => fsSet fs p (FsNode.file data)

/-- The name of `q` as a direct child of directory `p`, when it is one. -/
def childNameOf (p q : Bytes) : Option Bytes :=
  if startsWithB q (p ++ [47]) then
    let name := q.drop (p.length + 1)
    if name ≠ [] ∧ hasSlash name = false then some name else none
  else none

/-- `os.listdir(p)`: the names of the direct children of directory `p`, in
the order the filesystem stores them; raises when `p` is not a directory. -/
def osListdir (fs : Fs) (p : Bytes) : Option (List Bytes) :=
  if fsLookup fs p = some FsNode.dir then
    some (fs.filterMap (fun e => childNameOf p e.1))
  else none

/-! ## Protocol constants and server state -/

/-- `"/sd"`. -/
def SD : Bytes := strBytes "/sd"

/-- `DEFAULT_SCRIPT_DIR = "/sd/py_scripts"`. -/
def DEFAULT_SCRIPT_DIR : Bytes := strBytes "/sd/py_scripts"

/-- `CHUNK_SIZE = 200`. -/
def CHUNK_SIZE : Nat := 200

/-- `MAX_RETRIES = 5`. -/
def MAX_RETRIES : Nat := 5

/-- The module-level file-transfer state: `current_file` (the open write
handle, identified by the path it writes to), `current_path` and
`bytes_received`. -/
structure ServerState where
  currentFile : Option Bytes
  currentPath : Bytes
  bytesReceived : Nat
  deriving DecidableEq

/-- The state at module load: no open transfer. -/
def initState : ServerState := { currentFile := none, currentPath := [], bytesReceived := 0 }

/-- `cleanup_transfer()`: close and drop the handle, clear the path and the
byte counter. -/
def cleanupTransfer (_st : ServerState) : ServerState :=
  { currentFile := none, currentPath := [], bytesReceived := 0 }

/-- `send_error_response(command)`: the two-byte error frame. -/
def errResp (command : Nat) : Bytes := [command, 0xFF]

/-! ## Path normalisation (`start_file_transfer`, and the
`if not path.startswith("/sd")` pattern shared by all handlers) -/

/-- The destination rewrite at the top of `start_file_transfer`: a bare
filename or any path starting with `'/'` is redirected to
`DEFAULT_SCRIPT_DIR/<final component>`. -/
def rewriteDest (path : Bytes) : Bytes :=
  if !hasSlash path || startsWithB path [47] then
    let filename := if hasSlash path then lastSeg (pySplitSlash path) else path
    DEFAULT_SCRIPT_DIR ++ 47 :: filename
  else path

/-- The `if not path.startswith("/sd"): path = "/sd/" + path.lstrip('/')`
normalisation. -/
def normSd (path : Bytes) : Bytes :=
  if startsWithB path SD then path else SD ++ 47 :: pyLstripSlash path

/-- The full path a `FileInfo(path)` upload is written to. -/
def destPath (path : Bytes) : Bytes := normSd (rewriteDest path)

/-! ## `ensure_directory_exists` -/

/-- The body of the `for part in parts` loop of `ensure_directory_exists`:
builds the accumulated prefix string, skips empty parts and `"/sd"`, `stat`s,
and `mkdir`s when the `stat` raised.  Returns whether the loop completed
without an exception, together with the filesystem (partial creations
persist on failure). -/
def ensureDirsLoop : List Bytes → Bytes → Fs → Bool × Fs
  | [], _, fs => (true, fs)
  | part :: rest, current, fs =>
    if part = [] then ensureDirsLoop rest current fs
    else
      let current' := if current = [] then 47 :: part else current ++ 47 :: part
      if current' = SD then ensureDirsLoop rest current' fs
      else
        match fsLookup fs current' with
        | some _ => ensureDirsLoop rest current' fs
        | none =>
          match osMkdir fs current' with
          | some fs' => ensureDirsLoop rest current' fs'
          | none => (false, fs)

/-- `ensure_directory_exists(path)`: strip the final component, re-anchor
under `/sd` if needed, then create the missing ancestors in order.  The
`Bool` is `false` when the function raised. -/
def ensureDirectoryExists (path : Bytes) (fs : Fs) : Bool × Fs :=
  let directoryPath := pyJoinSlash (dropLastSeg (pySplitSlash path))
  if directoryPath = [] ∨ directoryPath = path then (true, fs)
  else
    let dp := if startsWithB directoryPath SD then directoryPath
              else SD ++ 47 :: pyLstripSlash directoryPath
    ensureDirsLoop (pySplitSlash dp) [] fs

/-- The prefix strings accumulated by `ensureDirsLoop` (including `"/sd"`,
which the loop never creates). -/
def accumKeys : List Bytes → Bytes → List Bytes
  | [], _ => []
  | part :: rest, current =>
    if part = [] then accumKeys rest current
    else
      let current' := if current = [] then 47 :: part else current ++ 47 :: part
      current' :: accumKeys rest current'

/-- One plus the length of each segment, summed: the length a list of
segments contributes to a `'/'`-joined string that opens with a separator. -/
def segsLen : List Bytes → Nat
  | [] => 0
  | s :: r => 1 + s.length + segsLen r

/-- The ancestor paths `ensure_directory_exists(q)` walks (the loop's
accumulated prefixes, in order). -/
def ancestorsOf (q : Bytes) : List Bytes :=
  let directoryPath := pyJoinSlash (dropLastSeg (pySplitSlash q))
  if directoryPath = [] ∨ directoryPath = q then []
  else
    let dp := if startsWithB directoryPath SD then directoryPath
              else SD ++ 47 :: pyLstripSlash directoryPath
    accumKeys (pySplitSlash dp) []

/-! ## Server command handlers

Each handler returns the list of `ble.gatts_notify` payloads it sends (the
transport is taken to succeed), the new filesystem, and — for the transfer
commands — the new transfer state.  Display and debug output are ignored. -/

/-- The `os.stat`/`os.remove` step of `start_file_transfer`: an existing
regular file at the destination is removed (a failing removal is logged and
ignored); a missing entry is left alone. -/
def clearExisting (fs : Fs) (q : Bytes) : Fs :=
  match fsLookup fs q with
  | some (FsNode.file _) => (osRemove fs q).getD fs
  | _ => fs

/-- `start_file_transfer(path)`. -/
def startFileTransfer (path : Bytes) (fs : Fs) (st : ServerState) :
    List Bytes × Fs × ServerState :=
  let p1 := rewriteDest path
  if st.currentFile.isSome then ([errResp 2], fs, st)
  else
    let p2 := normSd p1
    match fsLookup fs p2 with
    | some FsNode.dir => ([errResp 2], fs, st)
    | _ =>
      let fs1 := clearExisting fs p2
      match ensureDirectoryExists p2 fs1 with
      | (false, fs2) => ([errResp 2], fs2, cleanupTransfer st)
      | (true, fs2) =>
        match pyOpenWb fs2 p2 with
        | none => ([errResp 2], fs2, cleanupTransfer st)
        | some fs3 =>
          ([[2, 0]], fs3, { currentFile := some p2, currentPath := p2, bytesReceived := 0 })

/-- `receive_file_data(data)`. -/
def receiveFileData (data : Bytes) (fs : Fs) (st : ServerState) :
    List Bytes × Fs × ServerState :=
  match st.currentFile with
  | none => ([errResp 3], fs, st)
  | some h =>
    ([[3, 0]], fsAppendFile fs h data,
     { st with bytesReceived := st.bytesReceived + data.length })

/-- `end_file_transfer(original_filename_data)`: close the handle, optionally
rename to the client-supplied original name (failures inside the rename block
are logged and ignored), answer with the byte total, and clear the session. -/
def endFileTransfer (orig : Bytes) (fs : Fs) (st : ServerState) :
    List Bytes × Fs × ServerState :=
  match st.currentFile with
  | none => ([errResp 4], fs, st)
  | some _ =>
    let fs' :=
      if orig ≠ [] then
        if utf8Check orig then
          let directory := pyJoinSlash (dropLastSeg (pySplitSlash st.currentPath))
          let newPath := directory ++ 47 :: orig
          let fs1 := (osRemove fs newPath).getD fs
          (osRename fs1 st.currentPath newPath).getD fs1
        else fs
      else fs
    ([[4, 0] ++ le32 st.bytesReceived], fs', cleanupTransfer st)

/-- One directory-listing record: kind byte (1 = dir, 0 = file), four-byte
little-endian size (`stat[6]`, 0 for directories), name, null terminator.  An
entry whose `stat` raises is skipped. -/
def dirEntryBytes (fs : Fs) (p : Bytes) (entry : Bytes) : Bytes :=
  match fsLookup fs (p ++ 47 :: entry) with
  | some FsNode.dir => 1 :: (le32 0 ++ entry ++ [0])
  | some (FsNode.file c) => 0 :: (le32 c.length ++ entry ++ [0])
  | none => []

/-- The logical `ListDir` success response built by `list_directory`: the
echoed opcode, the resolved path, a null, then the entry records — and no
status byte.  `none` when `os.listdir` raised. -/
def listDirResponse (fs : Fs) (path : Bytes) : Option Bytes :=
  let p := normSd path
  match osListdir fs p with
  | none => none
  | some entries => some (1 :: (p ++ 0 :: joinAll (entries.map (dirEntryBytes fs p))))

/-- Chunk slicing with explicit fuel (`fuel` starts at the list length).  One
step takes `data[i:i+s]` and recurses on the rest, mirroring
`for i in range(0, len(data), CHUNK_SIZE)`. -/
def chunksGo (s : Nat) : Nat → Bytes → List Bytes
  | _, [] => []
  | 0, _ :: _ => []
  | fuel + 1, a :: t => (a :: t.take (s - 1)) :: chunksGo s fuel (t.drop (s - 1))

/-- The consecutive `data[i:i+s]` slices of `data` (for `s ≥ 1`). -/
def chunksOf (s : Nat) (data : Bytes) : List Bytes := chunksGo s data.length data

/-- `list_directory(path)` with an always-successful transport: the response
is sent as `CHUNK_SIZE`-byte notifications by `send_chunked_data`, or a
two-byte error frame when the listing raised.  The filesystem is untouched. -/
def listDirectory (fs : Fs) (path : Bytes) : List Bytes × Fs :=
  match listDirResponse fs path with
  | none => ([errResp 1], fs)
  | some r => (chunksOf CHUNK_SIZE r, fs)

/-- `make_directory(path)`. -/
def makeDirectory (path : Bytes) (fs : Fs) : List Bytes × Fs :=
  let q := normSd path
  match ensureDirectoryExists q fs with
  | (true, fs') => ([[5, 0]], fs')
  | (false, fs') => ([errResp 5], fs')

/-- `delete_file(path)`. -/
def deleteFile (path : Bytes) (fs : Fs) : List Bytes × Fs :=
  let q := normSd path
  match fsLookup fs q with
  | some FsNode.dir => ([errResp 6], fs)
  | none => ([errResp 6], fs)
  | some (FsNode.file _) =>
    match osRemove fs q with
    | some fs' => ([[6, 0]], fs')
    | none => ([errResp 6], fs)

/-- Everything under and including directory `q`. -/
def fsRemoveSubtree (fs : Fs) (q : Bytes) : Fs :=
  fs.filter (fun e => ¬(e.1 = q ∨ startsWithB e.1 (q ++ [47]) = true))

/-- `delete_directory(path)`: `rmdir_recursive` removes every file and
subdirectory below `q` and then `q` itself, which on this filesystem model is
the subtree filter; a non-directory path makes the first `os.listdir` raise,
which the handler answers with an error frame. -/
def deleteDirectory (path : Bytes) (fs : Fs) : List Bytes × Fs :=
  let q := normSd path
  if fsLookup fs q = some FsNode.dir then ([[7, 0]], fsRemoveSubtree fs q)
  else ([errResp 7], fs)

/-- `process_command(data)` (with `shutdown_requested = False`): dispatch on
the first byte.  `Except.error ()` is the `UnicodeError` that
`data[1:].decode('utf-8')` raises out of the dispatcher on an invalid path
payload; every other branch returns the notifications, filesystem and state
produced by the handlers. -/
def processCommand (data : Bytes) (fs : Fs) (st : ServerState) :
    Except Unit (List Bytes × Fs × ServerState) :=
  match data with
  | [] => Except.ok ([], fs, st)
  | command :: rest =>
    if command = 1 then
      if rest ≠ [] then
        if utf8Check rest then
          let r := listDirectory fs rest
          Except.ok (r.1, r.2, st)
        else Except.error ()
      else
        let r := listDirectory fs DEFAULT_SCRIPT_DIR
        Except.ok (r.1, r.2, st)
    else if command = 2 then
      if rest ≠ [] then
        if utf8Check rest then Except.ok (startFileTransfer rest fs st)
        else Except.error ()
      else Except.ok ([], fs, st)
    else if command = 3 then
      if rest ≠ [] then Except.ok (receiveFileData rest fs st)
      else Except.ok ([], fs, st)
    else if command = 4 then
      if rest ≠ [] then Except.ok (endFileTransfer rest fs st)
      else Except.ok (endFileTransfer [] fs st)
    else if command = 5 then
      if rest ≠ [] then
        if utf8Check rest then
          let r := makeDirectory rest fs
          Except.ok (r.1, r.2, st)
        else Except.error ()
      else Except.ok ([], fs, st)
    else if command = 6 then
      if rest ≠ [] then
        if utf8Check rest then
          let r := deleteFile rest fs
          Except.ok (r.1, r.2, st)
        else Except.error ()
      else Except.ok ([], fs, st)
    else if command = 7 then
      if rest ≠ [] then
        if utf8Check rest then
          let r := deleteDirectory rest fs
          Except.ok (r.1, r.2, st)
        else Except.error ()
      else Except.ok ([], fs, st)
    else Except.ok ([], fs, st)

/-- Whether an `Except` completed normally. -/
def exceptOk : Except Unit (List Bytes × Fs × ServerState) → Bool
  | Except.ok _ => true
  | Except.error _ => false

/-- Run a sequence of inbound writes through the dispatcher, recording for
each one the notifications sent and the byte counter after the command; an
uncaught dispatcher exception stops the run. -/
def runTrace : List Bytes → Fs → ServerState → List (List Bytes × Nat) × Fs × ServerState
  | [], fs, st => ([], fs, st)
  | c :: rest, fs, st =>
    match processCommand c fs st with
    | Except.error _ => ([], fs, st)
    | Except.ok (ns, fs', st') =>
      let r := runTrace rest fs' st'
      ((ns, st'.bytesReceived) :: r.1, r.2.1, r.2.2)

/-! ## Transport-parameterised sender (`send_chunked_data`)

The transport is a predicate on the global `gatts_notify` attempt counter:
`tr k = true` means the `k`-th notify attempt succeeds, `false` means it
raises.  Events record the delivered notifications and the `time.sleep_ms`
calls. -/

/-- An observable event of the sender. -/
inductive Ev where
  | notify : Bytes → Ev
  | sleepMs : Nat → Ev
  deriving DecidableEq

/-- The `while retry_count < MAX_RETRIES` loop body for one chunk, with fuel
(`MAX_RETRIES - retry` on entry).  Returns the next attempt counter, the
events, and whether the chunk was delivered (`false` = the loop hit
`MAX_RETRIES` and `send_chunked_data` returned, abandoning the send). -/
def sendRetryGo (tr : Nat → Bool) (chunk : Bytes) : Nat → Nat → Nat → Nat × List Ev × Bool
  | 0, k, _ => (k, [], false)
  | fuel + 1, k, retry =>
    if tr k then (k + 1, [Ev.notify chunk, Ev.sleepMs 10], true)
    else if retry + 1 ≥ MAX_RETRIES then (k + 1, [], false)
    else
      let r := sendRetryGo tr chunk fuel (k + 1) (retry + 1)
      (r.1, Ev.sleepMs (100 * (retry + 1)) :: r.2.1, r.2.2)

/-- One chunk: up to `MAX_RETRIES` notify attempts starting with
`retry_count = 0`. -/
def sendOneChunk (tr : Nat → Bool) (chunk : Bytes) (k : Nat) : Nat × List Ev × Bool :=
  sendRetryGo tr chunk MAX_RETRIES k 0

/-- The `for i in range(0, len(data), CHUNK_SIZE)` loop: stop as soon as a
chunk exhausts its retries. -/
def sendChunksLoop (tr : Nat → Bool) : Nat → List Bytes → Nat × List Ev × Bool
  | k, [] => (k, [], true)
  | k, ch :: rest =>
    let r := sendOneChunk tr ch k
    if r.2.2 then
      let r2 := sendChunksLoop tr r.1 rest
      (r2.1, r.2.1 ++ r2.2.1, r2.2.2)
    else (r.1, r.2.1, false)

/-- `send_chunked_data(data)` under transport `tr`, starting at attempt
counter `k`.  The final `Bool` is `true` when every chunk was delivered; in
either case the Python function returns `None` to its caller. -/
def sendChunkedDataT (tr : Nat → Bool) (k : Nat) (data : Bytes) : Nat × List Ev × Bool :=
  sendChunksLoop tr k (chunksOf CHUNK_SIZE data)

/-- `send_error_response` under transport `tr`: a failing notify is caught
and ignored. -/
def sendErrorResponseT (tr : Nat → Bool) (k : Nat) (command : Nat) : Nat × List Ev :=
  if tr k then (k + 1, [Ev.notify (errResp command)]) else (k + 1, [])

/-- `list_directory(path)` under transport `tr`.  The final `Bool` records
which branch the caller finished in: `true` is the success branch (reached
whenever the listing itself worked — `send_chunked_data` never raises and its
return value carries no error), `false` is the `except` branch. -/
def listDirectoryT (tr : Nat → Bool) (k : Nat) (fs : Fs) (path : Bytes) :
    Nat × List Ev × Bool :=
  match listDirResponse fs path with
  | some r =>
    let s := sendChunkedDataT tr k r
    (s.1, s.2.1, true)
  | none =>
    let e := sendErrorResponseT tr k 1
    (e.1, e.2, false)

/-- The always-failing transport. -/
def trFail : Nat → Bool := fun _ => false

/-- The inputs on which the dispatcher's path decode cannot raise: an empty
frame, a non-path opcode, an absent payload, or a payload that passes the
UTF-8 check (opcodes 1, 2, 5, 6, 7 are the ones `process_command` decodes; a
`FileEnd` payload is decoded inside the handler's inner `try`). -/
def decodeSafe (data : Bytes) : Bool :=
  match data with
  | [] => true
  | c :: rest =>
    if c = 1 ∨ c = 2 ∨ c = 5 ∨ c = 6 ∨ c = 7 then rest.isEmpty || utf8Check rest
    else true

/-- A filesystem with `/sd` containing the three-byte file `x.txt`. -/
def c2Fs : Fs := [(SD, FsNode.dir), (strBytes "/sd/x.txt", FsNode.file [104, 105, 33])]

/-- A filesystem where `/sd/f` already exists as a regular file. -/
def c10Fs : Fs := [(SD, FsNode.dir), (strBytes "/sd/f", FsNode.file [97])]

/-- A state with an open transfer session on `/sd/t`. -/
def c5St : ServerState :=
  { currentFile := some (strBytes "/sd/t"), currentPath := strBytes "/sd/t",
    bytesReceived := 3 }

/-! ## Chunking lemmas -/

theorem foldl_append_join (L : List Bytes) : ∀ init, L.foldl (· ++ ·) init = init ++ joinAll L := by
  induction L with
  | nil => intro init; simp [joinAll]
  | cons x r ih =>
    intro init
    simp only [List.foldl_cons, joinAll, ih (init ++ x), List.append_assoc]

theorem chunksGo_join (s : Nat) :
    ∀ (fuel : Nat) (l : Bytes), l.length ≤ fuel → joinAll (chunksGo s fuel l) = l := by
  intro fuel
  induction fuel with
  | zero =>
    intro l h
    cases l with
    | nil => rfl
    | cons a t => simp at h
  | succ n ih =>
    intro l h
    cases l with
    | nil => rfl
    | cons a t =>
      simp only [chunksGo, joinAll, List.cons_append]
      rw [ih (t.drop (s - 1)) (by simp at h ⊢; omega)]
      simp [List.take_append_drop]

theorem chunksGo_length (s : Nat) (hs : 1 ≤ s) :
    ∀ (fuel : Nat) (l : Bytes), l.length ≤ fuel →
      (chunksGo s fuel l).length = (l.length + s - 1) / s := by
  intro fuel
  induction fuel with
  | zero =>
    intro l h
    cases l with
    | nil =>
      simp only [chunksGo, List.length_nil]
      exact (Nat.div_eq_of_lt (by omega : 0 + s - 1 < s)).symm
    | cons a t => simp at h
  | succ n ih =>
    intro l h
    cases l with
    | nil =>
      simp only [chunksGo, List.length_nil]
      exact (Nat.div_eq_of_lt (by omega : 0 + s - 1 < s)).symm
    | cons a t =>
      simp only [chunksGo, List.length_cons]
      rw [ih (t.drop (s - 1)) (by simp at h ⊢; omega)]
      simp only [List.length_drop]
      have e1 : t.length + 1 + s - 1 = t.length + s := by omega
      rw [e1, Nat.add_div_right _ (by omega : 0 < s)]
      rcases le_or_lt (s - 1) t.length with hc | hc
      · have e2 : t.length - (s - 1) + s - 1 = t.length := by omega
        rw [e2]
      · have e2 : t.length - (s - 1) = 0 := by omega
        rw [e2]
        rw [Nat.div_eq_of_lt (by omega : 0 + s - 1 < s),
            Nat.div_eq_of_lt (by omega : t.length < s)]

theorem chunksGo_size (s : Nat) (hs : 1 ≤ s) :
    ∀ (fuel : Nat) (l : Bytes), ∀ c ∈ chunksGo s fuel l, c.length ≤ s := by
  intro fuel
  induction fuel with
  | zero =>
    intro l c hc
    cases l <;> simp [chunksGo] at hc
  | succ n ih =>
    intro l c hc
    cases l with
    | nil => simp [chunksGo] at hc
    | cons a t =>
      simp only [chunksGo, List.mem_cons] at hc
      rcases hc with rfl | hc
      · simp only [List.length_cons, List.length_take]
        omega
      · exact ih _ c hc

/-! ## Claim C6 -/

/-- C6: for every byte sequence and every chunk size S ≥ 1, the sender's
split into ceil(L/S) consecutive chunks of at most S bytes each, concatenated
by the receiver in arrival order (`response_buffer.extend` per notification),
reproduces the original byte sequence exactly. -/
theorem c6_chunk_reassembly (S : Nat) (hS : 1 ≤ S) (l : Bytes) :
    (chunksOf S l).foldl (· ++ ·) [] = l
    ∧ (chunksOf S l).length = (l.length + S - 1) / S
    ∧ ∀ c ∈ chunksOf S l, c.length ≤ S := by
  refine ⟨?_, ?_, ?_⟩
  · rw [foldl_append_join]
    simpa using chunksGo_join S l.length l le_rfl
  · exact chunksGo_length S hS l.length l le_rfl
  · exact chunksGo_size S hS l.length l

/-- Witness for C6 at S = 3 on a five-byte buffer. -/
theorem c6_witness :
    (chunksOf 3 [10, 20, 30, 40, 50]).foldl (· ++ ·) [] = [10, 20, 30, 40, 50]
    ∧ (chunksOf 3 [10, 20, 30, 40, 50]).length = (([10, 20, 30, 40, 50] : Bytes).length + 3 - 1) / 3
    ∧ ∀ c ∈ chunksOf 3 [10, 20, 30, 40, 50], c.length ≤ 3 :=
  c6_chunk_reassembly 3 (by decide) [10, 20, 30, 40, 50]

/-! ## Claim C1 -/

/-- C1 counterexample: after the full upload scenario
`FileInfo("/sd/a.txt")`, `FileData(b"hello")`, `FileData(b" world")`,
`FileEnd()` from a session-free state over a filesystem holding only `/sd`,
there is no file `b"hello world"` at `/sd/a.txt` — `start_file_transfer`
rewrote the absolute destination into `/sd/py_scripts/`. -/
theorem c1_counterexample :
    fsLookup (runTrace [2 :: strBytes "/sd/a.txt", 3 :: strBytes "hello",
        3 :: strBytes " world", [4]] [(SD, FsNode.dir)] initState).2.1
      (strBytes "/sd/a.txt") ≠ some (FsNode.file (strBytes "hello world")) := by
  decide

/-- C1 amended: the scenario receives a success response to each command, the
byte counter is 5 after the first `FileData` and 11 after the second, the
`FileEnd` success body is 11 as four little-endian bytes, and the resulting
file content `b"hello world"` lives at `/sd/py_scripts/a.txt` (not at the
requested `/sd/a.txt`, where nothing is created). -/
theorem c1_amended :
    runTrace [2 :: strBytes "/sd/a.txt", 3 :: strBytes "hello",
        3 :: strBytes " world", [4]] [(SD, FsNode.dir)] initState
      = ([([[2, 0]], 0), ([[3, 0]], 5), ([[3, 0]], 11), ([[4, 0, 11, 0, 0, 0]], 0)],
         [(strBytes "/sd/py_scripts/a.txt", FsNode.file (strBytes "hello world")),
          (strBytes "/sd/py_scripts", FsNode.dir), (SD, FsNode.dir)],
         initState)
    ∧ [4, 0, 11, 0, 0, 0] = [4, 0] ++ le32 11
    ∧ fsLookup [(strBytes "/sd/py_scripts/a.txt", FsNode.file (strBytes "hello world")),
          (strBytes "/sd/py_scripts", FsNode.dir), (SD, FsNode.dir)]
        (strBytes "/sd/a.txt") = none := by
  decide

/-! ## Claim C2 -/

/-- C2 counterexample: the successful `ListDir("/sd")` notification starts
with the echoed opcode but its second byte is `47` (the `'/'` of the resolved
path), not a status byte 0 or 0xFF — `list_directory` builds
`bytearray([CMD_LIST_DIR])` with no status byte. -/
theorem c2_counterexample :
    (listDirectory c2Fs SD).1
      = [[1, 47, 115, 100, 0, 0, 3, 0, 0, 0] ++ strBytes "x.txt" ++ [0]]
    ∧ ([1, 47, 115, 100, 0, 0, 3, 0, 0, 0] ++ strBytes "x.txt" ++ [0]).get? 1 = some 47
    ∧ ¬((47 : Nat) = 0 ∨ (47 : Nat) = 0xFF) := by
  decide

/-! ## Claim C4 -/

/-- C4 counterexample: a `FileInfo` frame whose path payload `[0xFF]` is not
valid UTF-8 makes `data[1:].decode('utf-8')` raise `UnicodeError` inside
`process_command`, outside every `try` block — the dispatcher does not
complete normally and no response is sent. -/
theorem c4_counterexample :
    processCommand [2, 0xFF] [(SD, FsNode.dir)] initState = Except.error () := rfl

/-! ## Claim C7 -/

/-- C7 counterexample: with a transport whose every notify raises, a
`ListDir` whose one-chunk response exhausts all `MAX_RETRIES = 5` attempts
(backoffs 100/200/300/400 ms) abandons the send — yet `list_directory`
finishes its success branch (final flag `true`): `send_chunked_data` just
returns `None`, so no `TransferAborted` error of any kind reaches the
caller. -/
theorem c7_counterexample :
    listDirectoryT trFail 0 [(SD, FsNode.dir)] SD
      = (5, [Ev.sleepMs 100, Ev.sleepMs 200, Ev.sleepMs 300, Ev.sleepMs 400], true) := rfl

/-! ## Claim C10 -/

/-- C10 counterexample: `MakeDir("/sd/f/x")` over `c10Fs` responds success,
yet the proper ancestor `/sd/f` of the normalized path is a regular file, not
a directory: the `os.stat` pre-check of `ensure_directory_exists` only tests
existence, so a file on an ancestor path is skipped rather than reported. -/
theorem c10_counterexample :
    (makeDirectory (strBytes "/sd/f/x") c10Fs).1 = [[5, 0]]
    ∧ ¬(∀ a ∈ ancestorsOf (normSd (strBytes "/sd/f/x")), a = SD ∨
        fsLookup (makeDirectory (strBytes "/sd/f/x") c10Fs).2 a = some FsNode.dir) := by
  decide

/-! ## Lemmas about path normalisation and `start_file_transfer` -/

theorem startsWithB_nil (l : Bytes) : startsWithB l [] = true := by
  cases l <;> rfl

theorem startsWithB_append_of {l pre : Bytes} (h : startsWithB l pre = true) (t : Bytes) :
    startsWithB (l ++ t) pre = true := by
  induction pre generalizing l with
  | nil => exact startsWithB_nil _
  | cons b pr ih =>
    cases l with
    | nil => simp [startsWithB] at h
    | cons a l' =>
      simp only [startsWithB, Bool.and_eq_true, beq_iff_eq] at h
      simp only [List.cons_append, startsWithB, Bool.and_eq_true, beq_iff_eq]
      exact ⟨h.1, ih h.2⟩

theorem startsWithB_slash_of_sd {p : Bytes} (h : startsWithB p SD = true) :
    startsWithB p [47] = true := by
  cases p with
  | nil => simp [startsWithB, SD, strBytes] at h
  | cons a l =>
    have : startsWithB (a :: l) SD = ((a == 47) && startsWithB l [115, 100]) := by
      simp [SD, strBytes, startsWithB]
    rw [this] at h
    simp only [Bool.and_eq_true, beq_iff_eq] at h
    simp [startsWithB, h.1]

/-- If a session-free `start_file_transfer` answers success, the new session
is open on `destPath p`. -/
theorem startFileTransfer_open_shape (p : Bytes) (fs : Fs) (st : ServerState)
    (h0 : st.currentFile = none) :
    (startFileTransfer p fs st).1 = [errResp 2]
    ∨ ((startFileTransfer p fs st).1 = [[2, 0]]
        ∧ (startFileTransfer p fs st).2.2
            = { currentFile := some (destPath p), currentPath := destPath p,
                bytesReceived := 0 }) := by
  unfold startFileTransfer
  simp only [h0, Option.isSome_none, Bool.false_eq_true, if_false]
  split
  · left; rfl
  · split
    · left; rfl
    · split
      · left; rfl
      · right; exact ⟨rfl, rfl⟩

/-- When the destination is free of obstacles, a session-free
`start_file_transfer` succeeds and opens the session on `destPath p`. -/
theorem startFileTransfer_success (p : Bytes) (fs : Fs) (st : ServerState)
    (h0 : st.currentFile = none)
    (h1 : fsLookup fs (destPath p) ≠ some FsNode.dir)
    (h2 : (ensureDirectoryExists (destPath p) (clearExisting fs (destPath p))).1 = true)
    (h3 : (pyOpenWb (ensureDirectoryExists (destPath p)
            (clearExisting fs (destPath p))).2 (destPath p)).isSome = true) :
    (startFileTransfer p fs st).1 = [[2, 0]]
    ∧ (startFileTransfer p fs st).2.2
        = { currentFile := some (destPath p), currentPath := destPath p,
            bytesReceived := 0 } := by
  have hd : normSd (rewriteDest p) = destPath p := rfl
  rcases hl : fsLookup fs (destPath p) with _ | n
  · rcases he : ensureDirectoryExists (destPath p) (clearExisting fs (destPath p)) with ⟨b, fs2⟩
    rw [he] at h2 h3
    simp only at h2 h3
    subst h2
    rcases ho : pyOpenWb fs2 (destPath p) with _ | fs3
    · rw [ho] at h3; simp at h3
    · constructor <;> simp [startFileTransfer, h0, hd, hl, he, ho]
  · cases n with
    | dir => exact absurd hl h1
    | file c =>
      rcases he : ensureDirectoryExists (destPath p) (clearExisting fs (destPath p)) with ⟨b, fs2⟩
      rw [he] at h2 h3
      simp only at h2 h3
      subst h2
      rcases ho : pyOpenWb fs2 (destPath p) with _ | fs3
      · rw [ho] at h3; simp at h3
      · constructor <;> simp [startFileTransfer, h0, hd, hl, he, ho]

/-! ## Claim C3 -/

/-- C3: with a transfer session already open (`current_file` set), a second
`FileInfo(p)` frame is answered by the error response echoing opcode 2 with
status 0xFF, and both the session state and the filesystem are returned
untouched, for every non-empty (decodable) path `p`. -/
theorem c3_second_fileinfo_rejected (p : Bytes) (fs : Fs) (st : ServerState) (h : Bytes)
    (hp : p ≠ []) (hu : utf8Check p = true) (hopen : st.currentFile = some h) :
    processCommand (2 :: p) fs st = Except.ok ([[2, 0xFF]], fs, st) := by
  have hs : st.currentFile.isSome = true := by rw [hopen]; rfl
  simp [processCommand, hp, hu, startFileTransfer, hs, errResp]

/-- Witness for C3: a second `FileInfo("/sd/b.txt")` while `/sd/py_scripts/a.txt`
is open for writing. -/
theorem c3_witness :
    processCommand (2 :: strBytes "/sd/b.txt") [(SD, FsNode.dir)]
        { currentFile := some (strBytes "/sd/py_scripts/a.txt"),
          currentPath := strBytes "/sd/py_scripts/a.txt", bytesReceived := 5 }
      = Except.ok ([[2, 0xFF]], [(SD, FsNode.dir)],
          { currentFile := some (strBytes "/sd/py_scripts/a.txt"),
            currentPath := strBytes "/sd/py_scripts/a.txt", bytesReceived := 5 }) :=
  c3_second_fileinfo_rejected _ _ _ _ (by decide) (by decide) rfl

/-! ## Claim C8 -/

/-- C8: `Delete(p)` answers an error frame when the `/sd`-normalized path is
missing or is a directory — leaving the filesystem exactly as it was — and
otherwise removes the file entry and answers success. -/
theorem c8_delete_file (p : Bytes) (fs : Fs) :
    (fsLookup fs (normSd p) = none → deleteFile p fs = ([[6, 0xFF]], fs))
    ∧ (fsLookup fs (normSd p) = some FsNode.dir → deleteFile p fs = ([[6, 0xFF]], fs))
    ∧ (∀ c, fsLookup fs (normSd p) = some (FsNode.file c) →
        deleteFile p fs = ([[6, 0]], fsRemoveKey fs (normSd p))) := by
  refine ⟨?_, ?_, ?_⟩
  · intro h; simp [deleteFile, h, errResp]
  · intro h; simp [deleteFile, h, errResp]
  · intro c h; simp [deleteFile, h, osRemove]

/-- Witness for C8: deleting the existing file `x.txt` (normalized to
`/sd/x.txt`) succeeds and removes exactly that entry. -/
theorem c8_witness :
    deleteFile (strBytes "x.txt") c2Fs
      = ([[6, 0]], fsRemoveKey c2Fs (normSd (strBytes "x.txt"))) :=
  (c8_delete_file (strBytes "x.txt") c2Fs).2.2 [104, 105, 33] (by decide)

/-! ## Claim C9 -/

/-- C9: `start_file_transfer` rewrites every destination that starts with
`'/'` or contains no `'/'` to `DEFAULT_SCRIPT_DIR/<final component>`, keeps
the directory structure only for relative paths containing a `'/'` (anchored
under `/sd`), and on success the opened session's path is exactly this
rewritten `destPath`. -/
theorem c9_fileinfo_path_rewrite :
    (∀ p : Bytes, (hasSlash p = false ∨ startsWithB p [47] = true) →
        destPath p = DEFAULT_SCRIPT_DIR ++ 47 ::
          (if hasSlash p then lastSeg (pySplitSlash p) else p))
    ∧ (∀ p : Bytes, hasSlash p = true → startsWithB p [47] = false →
        destPath p = SD ++ 47 :: p)
    ∧ (∀ (p : Bytes) (fs : Fs) (st : ServerState),
        st.currentFile = none →
        (startFileTransfer p fs st).1 = [[2, 0]] →
        (startFileTransfer p fs st).2.2.currentPath = destPath p
        ∧ (startFileTransfer p fs st).2.2.currentFile = some (destPath p)) := by
  refine ⟨?_, ?_, ?_⟩
  · intro p hp
    have hc : (!hasSlash p || startsWithB p [47]) = true := by
      rcases hp with h | h
      · simp [h]
      · simp [h]
    have hsw : startsWithB (DEFAULT_SCRIPT_DIR ++ 47 ::
        (if hasSlash p then lastSeg (pySplitSlash p) else p)) SD = true :=
      startsWithB_append_of (by decide) _
    unfold destPath rewriteDest normSd
    simp only [hc, if_true, hsw]
  · intro p h1 h2
    have hns : p ≠ [] := by
      intro hnil; rw [hnil] at h1; simp [hasSlash] at h1
    have hc : (!hasSlash p || startsWithB p [47]) = false := by
      simp [h1, h2]
    have hsd : startsWithB p SD = false := by
      cases p with
      | nil => exact absurd rfl hns
      | cons a l =>
        have ha : (a == 47) = false := by
          have : startsWithB (a :: l) [47] = ((a == 47) && true) := by
            simp [startsWithB]
          rw [this] at h2
          simpa using h2
        have : startsWithB (a :: l) SD = ((a == 47) && startsWithB l [115, 100]) := by
          simp [SD, strBytes, startsWithB]
        rw [this, ha]
        rfl
    have hstrip : pyLstripSlash p = p := by
      cases p with
      | nil => rfl
      | cons a l =>
        have ha : (a == 47) = false := by
          have : startsWithB (a :: l) [47] = ((a == 47) && true) := by
            simp [startsWithB]
          rw [this] at h2
          simpa using h2
        simp [pyLstripSlash, List.dropWhile, ha]
    unfold destPath rewriteDest normSd
    simp only [hc, Bool.false_eq_true, if_false, hsd, hstrip]
  · intro p fs st h0 hsucc
    rcases startFileTransfer_open_shape p fs st h0 with herr | ⟨_, hst⟩
    · rw [herr] at hsucc
      exact absurd hsucc (by simp [errResp])
    · rw [hst]
      exact ⟨rfl, rfl⟩

/-- Witness for C9: uploading to the absolute path `/sd/a.txt` opens the
session on `destPath "/sd/a.txt" = /sd/py_scripts/a.txt`. -/
theorem c9_witness :
    (startFileTransfer (strBytes "/sd/a.txt") [(SD, FsNode.dir)] initState).2.2.currentPath
        = destPath (strBytes "/sd/a.txt")
    ∧ (startFileTransfer (strBytes "/sd/a.txt") [(SD, FsNode.dir)] initState).2.2.currentFile
        = some (destPath (strBytes "/sd/a.txt")) :=
  c9_fileinfo_path_rewrite.2.2 (strBytes "/sd/a.txt") [(SD, FsNode.dir)] initState rfl
    (by decide)

/-! ## Claim C5 -/

/-- C5: a link-layer disconnect runs `cleanup_transfer`, which discards the
open handle and resets `current_file`, `current_path` and `bytes_received`;
a `FileInfo(p)` processed after reconnecting then succeeds (no residual
"already open" rejection) whenever the destination itself poses no obstacle
— i.e. `destPath p` is not an existing directory, the ancestor creation
completes, and the write handle opens. -/
theorem c5_disconnect_resets (st : ServerState) (fs : Fs) (p : Bytes)
    (h1 : fsLookup fs (destPath p) ≠ some FsNode.dir)
    (h2 : (ensureDirectoryExists (destPath p) (clearExisting fs (destPath p))).1 = true)
    (h3 : (pyOpenWb (ensureDirectoryExists (destPath p)
            (clearExisting fs (destPath p))).2 (destPath p)).isSome = true) :
    (cleanupTransfer st).currentFile = none
    ∧ (cleanupTransfer st).currentPath = []
    ∧ (cleanupTransfer st).bytesReceived = 0
    ∧ (startFileTransfer p fs (cleanupTransfer st)).1 = [[2, 0]]
    ∧ (startFileTransfer p fs (cleanupTransfer st)).2.2.currentFile
        = some (destPath p) := by
  have h := startFileTransfer_success p fs (cleanupTransfer st) rfl h1 h2 h3
  exact ⟨rfl, rfl, rfl, h.1, by rw [h.2]⟩

/-- Witness for C5: a state holding an open session on `/sd/t` is reset by
the disconnect, and a fresh `FileInfo("x.py")` (destination
`/sd/py_scripts/x.py`) succeeds. -/
theorem c5_witness :
    (cleanupTransfer c5St).currentFile = none
    ∧ (cleanupTransfer c5St).currentPath = []
    ∧ (cleanupTransfer c5St).bytesReceived = 0
    ∧ (startFileTransfer (strBytes "x.py") [(SD, FsNode.dir)] (cleanupTransfer c5St)).1
        = [[2, 0]]
    ∧ (startFileTransfer (strBytes "x.py") [(SD, FsNode.dir)]
        (cleanupTransfer c5St)).2.2.currentFile = some (destPath (strBytes "x.py")) :=
  c5_disconnect_resets c5St [(SD, FsNode.dir)] (strBytes "x.py")
    (by decide) (by decide) (by decide)

/-- C2 amended: error frames are `[opcode, 0xFF]`; the success responses of
`FileInfo`, `FileData`, `MakeDir`, `Delete` and `DeleteDir` are
`[opcode, 0]`, that of `FileEnd` is `[4, 0]` plus the byte total — so for all
of these, byte 0 echoes the opcode and byte 1 is the status — but the
successful `ListDir` response has no status byte at all: it is the echoed
opcode, the resolved path, a null, and the entry records. -/
theorem c2_amended :
    (∀ c, errResp c = [c, 0xFF])
    ∧ (∀ (p : Bytes) (fs : Fs) (st : ServerState),
        (startFileTransfer p fs st).1 = [[2, 0xFF]]
        ∨ (startFileTransfer p fs st).1 = [[2, 0]])
    ∧ (∀ (d : Bytes) (fs : Fs) (st : ServerState),
        (receiveFileData d fs st).1 = [[3, 0xFF]]
        ∨ (receiveFileData d fs st).1 = [[3, 0]])
    ∧ (∀ (o : Bytes) (fs : Fs) (st : ServerState),
        (endFileTransfer o fs st).1 = [[4, 0xFF]]
        ∨ (endFileTransfer o fs st).1 = [[4, 0] ++ le32 st.bytesReceived])
    ∧ (∀ (p : Bytes) (fs : Fs),
        (makeDirectory p fs).1 = [[5, 0xFF]] ∨ (makeDirectory p fs).1 = [[5, 0]])
    ∧ (∀ (p : Bytes) (fs : Fs),
        (deleteFile p fs).1 = [[6, 0xFF]] ∨ (deleteFile p fs).1 = [[6, 0]])
    ∧ (∀ (p : Bytes) (fs : Fs),
        (deleteDirectory p fs).1 = [[7, 0xFF]] ∨ (deleteDirectory p fs).1 = [[7, 0]])
    ∧ (∀ (fs : Fs) (p r : Bytes), listDirResponse fs p = some r →
        ∃ entries, osListdir fs (normSd p) = some entries
          ∧ r = 1 :: (normSd p ++ 0 :: joinAll (entries.map (dirEntryBytes fs (normSd p))))) := by
  refine ⟨fun c => rfl, ?_, ?_, ?_, ?_, ?_, ?_, ?_⟩
  · intro p fs st
    unfold startFileTransfer
    dsimp only
    repeat' split
    all_goals first | (left; rfl) | (right; rfl)
  · intro d fs st
    unfold receiveFileData
    repeat' split
    all_goals first | (left; rfl) | (right; rfl)
  · intro o fs st
    unfold endFileTransfer
    dsimp only
    repeat' split
    all_goals first | (left; rfl) | (right; rfl)
  · intro p fs
    unfold makeDirectory
    dsimp only
    repeat' split
    all_goals first | (left; rfl) | (right; rfl)
  · intro p fs
    unfold deleteFile
    dsimp only
    repeat' split
    all_goals first | (left; rfl) | (right; rfl)
  · intro p fs
    unfold deleteDirectory
    dsimp only
    repeat' split
    all_goals first | (left; rfl) | (right; rfl)
  · intro fs p r h
    rcases ho : osListdir fs (normSd p) with _ | entries
    · simp [listDirResponse, ho] at h
    · simp only [listDirResponse, ho, Option.some.injEq] at h
      exact ⟨entries, rfl, h.symm⟩

/-- Witness for C2 on the concrete listing of `/sd` over `c2Fs`. -/
theorem c2_witness :
    ∃ entries, osListdir c2Fs (normSd SD) = some entries
      ∧ [1, 47, 115, 100, 0, 0, 3, 0, 0, 0] ++ strBytes "x.txt" ++ [0]
          = 1 :: (normSd SD ++ 0 :: joinAll (entries.map (dirEntryBytes c2Fs (normSd SD)))) :=
  c2_amended.2.2.2.2.2.2.2 c2Fs SD
    ([1, 47, 115, 100, 0, 0, 3, 0, 0, 0] ++ strBytes "x.txt" ++ [0]) (by decide)

/-- C4 amended: the dispatcher completes without an uncaught exception on
every delivered byte sequence whose path payload (for the decoding opcodes 1,
2, 5, 6, 7) is absent or valid UTF-8 (`decodeSafe`); unknown opcodes are
silently ignored with no response; a path opcode with an empty payload is
also ignored with no response (not answered with an error frame).  An invalid
UTF-8 path payload, by contrast, raises an uncaught `UnicodeError`
(`c4_counterexample`). -/
theorem c4_amended :
    (∀ (data : Bytes) (fs : Fs) (st : ServerState),
        decodeSafe data = true → exceptOk (processCommand data fs st) = true)
    ∧ (∀ (c : Nat) (rest : Bytes) (fs : Fs) (st : ServerState),
        ¬(c = 1 ∨ c = 2 ∨ c = 3 ∨ c = 4 ∨ c = 5 ∨ c = 6 ∨ c = 7) →
        processCommand (c :: rest) fs st = Except.ok ([], fs, st))
    ∧ (∀ (c : Nat) (fs : Fs) (st : ServerState), c = 2 ∨ c = 5 ∨ c = 6 ∨ c = 7 →
        processCommand [c] fs st = Except.ok ([], fs, st)) := by
  refine ⟨?_, ?_, ?_⟩
  · intro data fs st h
    cases data with
    | nil => rfl
    | cons c rest =>
      by_cases h1 : c = 1
      · subst h1
        cases rest with
        | nil => rfl
        | cons x xs =>
          simp [decodeSafe] at h
          simp [processCommand, h, exceptOk]
      · by_cases h2 : c = 2
        · subst h2
          cases rest with
          | nil => rfl
          | cons x xs =>
            simp [decodeSafe] at h
            simp [processCommand, h, exceptOk]
        · by_cases h3 : c = 3
          · subst h3
            cases rest with
            | nil => rfl
            | cons x xs => rfl
          · by_cases h4 : c = 4
            · subst h4
              cases rest with
              | nil => rfl
              | cons x xs => rfl
            · by_cases h5 : c = 5
              · subst h5
                cases rest with
                | nil => rfl
                | cons x xs =>
                  simp [decodeSafe] at h
                  simp [processCommand, h, exceptOk]
              · by_cases h6 : c = 6
                · subst h6
                  cases rest with
                  | nil => rfl
                  | cons x xs =>
                    simp [decodeSafe] at h
                    simp [processCommand, h, exceptOk]
                · by_cases h7 : c = 7
                  · subst h7
                    cases rest with
                    | nil => rfl
                    | cons x xs =>
                      simp [decodeSafe] at h
                      simp [processCommand, h, exceptOk]
                  · simp [processCommand, h1, h2, h3, h4, h5, h6, h7, exceptOk]
  · intro c rest fs st h
    push_neg at h
    obtain ⟨h1, h2, h3, h4, h5, h6, h7⟩ := h
    simp [processCommand, h1, h2, h3, h4, h5, h6, h7]
  · intro c fs st h
    rcases h with rfl | rfl | rfl | rfl <;> rfl

/-- Witness for C4: a well-formed `ListDir`, an unknown opcode 9, and a
payload-less `MakeDir` all complete without an exception. -/
theorem c4_witness :
    exceptOk (processCommand (1 :: strBytes "/sd") c2Fs initState) = true
    ∧ processCommand [9, 1, 2] c2Fs initState = Except.ok ([], c2Fs, initState)
    ∧ processCommand [5] c2Fs initState = Except.ok ([], c2Fs, initState) :=
  ⟨c4_amended.1 (1 :: strBytes "/sd") c2Fs initState (by decide),
   c4_amended.2.1 9 [1, 2] c2Fs initState (by decide),
   c4_amended.2.2 5 c2Fs initState (by decide)⟩

/-- Under the always-failing transport, the very first chunk burns all
`MAX_RETRIES = 5` notify attempts with backoff sleeps of 100, 200, 300 and
400 ms (100 ms × attempt number after each failed attempt but the last) and
`send_chunked_data` returns, abandoning the whole send. -/
theorem sendChunkedDataT_trFail (data : Bytes) (hne : data ≠ []) :
    sendChunkedDataT trFail 0 data
      = (MAX_RETRIES,
         [Ev.sleepMs 100, Ev.sleepMs 200, Ev.sleepMs 300, Ev.sleepMs 400], false) := by
  cases data with
  | nil => exact absurd rfl hne
  | cons a t =>
    have hone : ∀ ch : Bytes, sendOneChunk trFail ch 0
        = (5, [Ev.sleepMs 100, Ev.sleepMs 200, Ev.sleepMs 300, Ev.sleepMs 400], false) :=
      fun ch => rfl
    have hch : chunksOf CHUNK_SIZE (a :: t)
        = (a :: t.take (CHUNK_SIZE - 1)) :: chunksGo CHUNK_SIZE t.length (t.drop (CHUNK_SIZE - 1)) :=
      rfl
    simp [sendChunkedDataT, hch, sendChunksLoop, hone, MAX_RETRIES]

/-- A successful listing response is never empty (it starts with the echoed
opcode byte). -/
theorem listDirResponse_ne_nil {fs : Fs} {p r : Bytes}
    (h : listDirResponse fs p = some r) : r ≠ [] := by
  rcases ho : osListdir fs (normSd p) with _ | entries
  · simp [listDirResponse, ho] at h
  · simp only [listDirResponse, ho, Option.some.injEq] at h
    intro hnil
    rw [hnil] at h
    simp at h

/-- C7 amended: on a transport failure the sender retries the chunk up to the
fixed bound `MAX_RETRIES = 5` total attempts, sleeping 100 ms × the attempt
number after each failed attempt below the bound; when the bound is reached
the whole send is abandoned — but no `TransferAborted` (or any other) error
is surfaced: `send_chunked_data` returns normally, and its caller
`list_directory` finishes its success branch exactly as if the send had
worked. -/
theorem c7_amended :
    (∀ data : Bytes, data ≠ [] →
        sendChunkedDataT trFail 0 data
          = (MAX_RETRIES,
             [Ev.sleepMs 100, Ev.sleepMs 200, Ev.sleepMs 300, Ev.sleepMs 400], false))
    ∧ (∀ (fs : Fs) (p r : Bytes), listDirResponse fs p = some r →
        listDirectoryT trFail 0 fs p
          = (MAX_RETRIES,
             [Ev.sleepMs 100, Ev.sleepMs 200, Ev.sleepMs 300, Ev.sleepMs 400], true)) := by
  refine ⟨sendChunkedDataT_trFail, ?_⟩
  intro fs p r h
  have hr := listDirResponse_ne_nil h
  simp [listDirectoryT, h, sendChunkedDataT_trFail r hr]

/-- Witness for C7: the one-byte send under the failing transport. -/
theorem c7_witness :
    sendChunkedDataT trFail 0 [9]
      = (MAX_RETRIES,
         [Ev.sleepMs 100, Ev.sleepMs 200, Ev.sleepMs 300, Ev.sleepMs 400], false) :=
  c7_amended.1 [9] (by decide)

/-! ## String lemmas for the `ensure_directory_exists` analysis -/

theorem sd_eq : SD = [47, 115, 100] := rfl

theorem pySplitSlash_ne_nil (l : Bytes) : pySplitSlash l ≠ [] := by
  cases l with
  | nil => simp [pySplitSlash]
  | cons b t =>
    unfold pySplitSlash
    split
    · simp
    · split <;> simp

theorem segsLen_split (l : Bytes) : segsLen (pySplitSlash l) = l.length + 1 := by
  induction l with
  | nil => rfl
  | cons b t ih =>
    by_cases hb : b = 47
    · subst hb
      show segsLen ([] :: pySplitSlash t) = t.length + 1 + 1
      simp [segsLen, ih]
      omega
    · rcases hs : pySplitSlash t with _ | ⟨s, rest⟩
      · exact absurd hs (pySplitSlash_ne_nil t)
      · have hsp : pySplitSlash (b :: t) = (b :: s) :: rest := by
          unfold pySplitSlash
          simp [hb, hs]
        rw [hsp]
        have iht : 1 + s.length + segsLen rest = t.length + 1 := by
          have := ih
          rw [hs] at this
          simpa [segsLen] using this
        simp [segsLen]
        omega

theorem join_split_id (l : Bytes) : pyJoinSlash (pySplitSlash l) = l := by
  induction l with
  | nil => rfl
  | cons b t ih =>
    by_cases hb : b = 47
    · subst hb
      show pyJoinSlash ([] :: pySplitSlash t) = 47 :: t
      rcases hs : pySplitSlash t with _ | ⟨s, r⟩
      · exact absurd hs (pySplitSlash_ne_nil t)
      · rw [hs] at ih
        show [] ++ 47 :: pyJoinSlash (s :: r) = 47 :: t
        rw [List.nil_append, ih]
    · rcases hs : pySplitSlash t with _ | ⟨s, r⟩
      · exact absurd hs (pySplitSlash_ne_nil t)
      · have hsp : pySplitSlash (b :: t) = (b :: s) :: r := by
          unfold pySplitSlash
          simp [hb, hs]
        rw [hsp]
        rw [hs] at ih
        cases r with
        | nil =>
          show b :: s = b :: t
          have : s = t := ih
          rw [this]
        | cons y r' =>
          show (b :: s) ++ 47 :: pyJoinSlash (y :: r') = b :: t
          have : s ++ 47 :: pyJoinSlash (y :: r') = t := ih
          rw [List.cons_append, this]

theorem joinSlash_decomp (x y : Bytes) (r : List Bytes) :
    pyJoinSlash (x :: y :: r)
      = pyJoinSlash (dropLastSeg (x :: y :: r)) ++ 47 :: lastSeg (x :: y :: r) := by
  induction r generalizing x y with
  | nil => rfl
  | cons z r' ih =>
    show x ++ 47 :: pyJoinSlash (y :: z :: r')
      = pyJoinSlash (x :: dropLastSeg (y :: z :: r')) ++ 47 :: lastSeg (y :: z :: r')
    rw [ih y z]
    rw [show dropLastSeg (y :: z :: r') = y :: dropLastSeg (z :: r') from rfl]
    show x ++ 47 :: (pyJoinSlash (y :: dropLastSeg (z :: r')) ++ 47 :: lastSeg (y :: z :: r'))
      = (x ++ 47 :: pyJoinSlash (y :: dropLastSeg (z :: r'))) ++ 47 :: lastSeg (y :: z :: r')
    simp [List.append_assoc]

theorem joinSlash_cons_shape (x : Bytes) (l : List Bytes) :
    ∃ w, pyJoinSlash (x :: l) = x ++ w := by
  cases l with
  | nil => exact ⟨[], (List.append_nil x).symm⟩
  | cons y r => exact ⟨47 :: pyJoinSlash (y :: r), rfl⟩

theorem startsWithB_exists {l pre : Bytes} (h : startsWithB l pre = true) :
    ∃ t, l = pre ++ t := by
  induction pre generalizing l with
  | nil => exact ⟨l, rfl⟩
  | cons b pr ih =>
    cases l with
    | nil => simp [startsWithB] at h
    | cons a l' =>
      simp only [startsWithB, Bool.and_eq_true, beq_iff_eq] at h
      obtain ⟨t, ht⟩ := ih h.2
      exact ⟨t, by rw [h.1, ht]; rfl⟩

theorem startsWithB_sd_cons (w : Bytes) : startsWithB (47 :: 115 :: 100 :: w) SD = true := by
  rw [sd_eq]
  simp [startsWithB, startsWithB_nil]

theorem normSd_shape (p : Bytes) : ∃ t, normSd p = 47 :: 115 :: 100 :: t := by
  unfold normSd
  split
  · rename_i h
    obtain ⟨t, ht⟩ := startsWithB_exists h
    refine ⟨t, ?_⟩
    rw [ht, sd_eq]
    rfl
  · refine ⟨47 :: pyLstripSlash p, ?_⟩
    rw [sd_eq]
    rfl

theorem split_sd_tail (t : Bytes) :
    ∃ s r, pySplitSlash t = s :: r
      ∧ pySplitSlash (115 :: 100 :: t) = (115 :: 100 :: s) :: r := by
  rcases hs : pySplitSlash t with _ | ⟨s, r⟩
  · exact absurd hs (pySplitSlash_ne_nil t)
  · refine ⟨s, r, rfl, ?_⟩
    simp [pySplitSlash, hs]

/-! ## Step equations for the directory-creation loop -/

theorem ensureDirsLoop_cons_empty (rest : List Bytes) (cur : Bytes) (fs : Fs) :
    ensureDirsLoop ([] :: rest) cur fs = ensureDirsLoop rest cur fs := by
  conv_lhs => unfold ensureDirsLoop
  simp

theorem ensureDirsLoop_cons_sd (part : Bytes) (rest : List Bytes) (cur : Bytes) (fs : Fs)
    (hp : part ≠ [])
    (hsd : (if cur = [] then 47 :: part else cur ++ 47 :: part) = SD) :
    ensureDirsLoop (part :: rest) cur fs
      = ensureDirsLoop rest (if cur = [] then 47 :: part else cur ++ 47 :: part) fs := by
  conv_lhs => unfold ensureDirsLoop
  simp [hp, hsd]

theorem ensureDirsLoop_cons_found (part : Bytes) (rest : List Bytes) (cur : Bytes) (fs : Fs)
    (m : FsNode) (hp : part ≠ [])
    (hsd : ¬(if cur = [] then 47 :: part else cur ++ 47 :: part) = SD)
    (hl : fsLookup fs (if cur = [] then 47 :: part else cur ++ 47 :: part) = some m) :
    ensureDirsLoop (part :: rest) cur fs
      = ensureDirsLoop rest (if cur = [] then 47 :: part else cur ++ 47 :: part) fs := by
  conv_lhs => unfold ensureDirsLoop
  simp [hp, hsd, hl]

theorem ensureDirsLoop_cons_mkdir (part : Bytes) (rest : List Bytes) (cur : Bytes)
    (fs fs' : Fs) (hp : part ≠ [])
    (hsd : ¬(if cur = [] then 47 :: part else cur ++ 47 :: part) = SD)
    (hl : fsLookup fs (if cur = [] then 47 :: part else cur ++ 47 :: part) = none)
    (hm : osMkdir fs (if cur = [] then 47 :: part else cur ++ 47 :: part) = some fs') :
    ensureDirsLoop (part :: rest) cur fs
      = ensureDirsLoop rest (if cur = [] then 47 :: part else cur ++ 47 :: part) fs' := by
  conv_lhs => unfold ensureDirsLoop
  simp [hp, hsd, hl, hm]

theorem ensureDirsLoop_cons_fail (part : Bytes) (rest : List Bytes) (cur : Bytes) (fs : Fs)
    (hp : part ≠ [])
    (hsd : ¬(if cur = [] then 47 :: part else cur ++ 47 :: part) = SD)
    (hl : fsLookup fs (if cur = [] then 47 :: part else cur ++ 47 :: part) = none)
    (hm : osMkdir fs (if cur = [] then 47 :: part else cur ++ 47 :: part) = none) :
    ensureDirsLoop (part :: rest) cur fs = (false, fs) := by
  conv_lhs => unfold ensureDirsLoop
  simp [hp, hsd, hl, hm]

theorem accumKeys_cons_empty (rest : List Bytes) (cur : Bytes) :
    accumKeys ([] :: rest) cur = accumKeys rest cur := by
  conv_lhs => unfold accumKeys
  simp

theorem accumKeys_cons (part : Bytes) (rest : List Bytes) (cur : Bytes) (hp : part ≠ []) :
    accumKeys (part :: rest) cur
      = (if cur = [] then 47 :: part else cur ++ 47 :: part)
        :: accumKeys rest (if cur = [] then 47 :: part else cur ++ 47 :: part) := by
  conv_lhs => unfold accumKeys
  simp [hp]

theorem osMkdir_some {fs : Fs} {p : Bytes} {fs' : Fs} (h : osMkdir fs p = some fs') :
    fs' = (p, FsNode.dir) :: fs ∧ fsLookup fs p = none := by
  unfold osMkdir at h
  by_cases he : (fsLookup fs p).isSome
  · rw [if_pos he] at h
    exact absurd h (by simp)
  · rw [if_neg he] at h
    constructor
    · split at h
      · exact (Option.some.injEq _ _).mp h |>.symm
      · exact absurd h (by simp)
    · rcases hl : fsLookup fs p with _ | m
      · rfl
      · rw [hl] at he
        simp at he

/-! ## Invariants of the directory-creation loop -/

theorem fsLookup_cons (p : Bytes) (n : FsNode) (fs : Fs) (k : Bytes) :
    fsLookup ((p, n) :: fs) k = if p = k then some n else fsLookup fs k := rfl

/-- Entries present before the loop are still present (with the same node)
afterwards: the loop only inserts fresh directory entries. -/
theorem ensureDirsLoop_preserve :
    ∀ (parts : List Bytes) (cur : Bytes) (fs : Fs) (k : Bytes) (n : FsNode),
      fsLookup fs k = some n →
      fsLookup (ensureDirsLoop parts cur fs).2 k = some n := by
  intro parts
  induction parts with
  | nil => intro cur fs k n hk; exact hk
  | cons part rest ih =>
    intro cur fs k n hk
    by_cases hp : part = []
    · subst hp
      rw [ensureDirsLoop_cons_empty]
      exact ih cur fs k n hk
    · by_cases hsd : (if cur = [] then 47 :: part else cur ++ 47 :: part) = SD
      · rw [ensureDirsLoop_cons_sd part rest cur fs hp hsd]
        exact ih (if cur = [] then 47 :: part else cur ++ 47 :: part) fs k n hk
      · rcases hl : fsLookup fs (if cur = [] then 47 :: part else cur ++ 47 :: part)
            with _ | m
        · rcases hm : osMkdir fs (if cur = [] then 47 :: part else cur ++ 47 :: part)
              with _ | fs'
          · rw [ensureDirsLoop_cons_fail part rest cur fs hp hsd hl hm]
            exact hk
          · rw [ensureDirsLoop_cons_mkdir part rest cur fs fs' hp hsd hl hm]
            refine ih (if cur = [] then 47 :: part else cur ++ 47 :: part) fs' k n ?_
            obtain ⟨rfl, -⟩ := osMkdir_some hm
            rw [fsLookup_cons]
            by_cases hpk : (if cur = [] then 47 :: part else cur ++ 47 :: part) = k
            · rw [hpk] at hl
              rw [hl] at hk
              exact absurd hk (by simp)
            · rw [if_neg hpk]
              exact hk
        · rw [ensureDirsLoop_cons_found part rest cur fs m hp hsd hl]
          exact ih (if cur = [] then 47 :: part else cur ++ 47 :: part) fs k n hk

/-- After a successful loop, every accumulated prefix is `"/sd"` or exists in
the final filesystem; the ones that were absent initially were created as
directories. -/
theorem ensureDirsLoop_ancestors :
    ∀ (parts : List Bytes) (cur : Bytes) (fs : Fs),
      (ensureDirsLoop parts cur fs).1 = true →
      ∀ a ∈ accumKeys parts cur,
        a = SD ∨ ((fsLookup (ensureDirsLoop parts cur fs).2 a).isSome = true
          ∧ (fsLookup fs a = none →
              fsLookup (ensureDirsLoop parts cur fs).2 a = some FsNode.dir)) := by
  intro parts
  induction parts with
  | nil => intro cur fs _ a ha; simp [accumKeys] at ha
  | cons part rest ih =>
    intro cur fs hok a ha
    by_cases hp : part = []
    · subst hp
      rw [ensureDirsLoop_cons_empty] at hok ⊢
      rw [accumKeys_cons_empty] at ha
      exact ih cur fs hok a ha
    · rw [accumKeys_cons part rest cur hp] at ha
      by_cases hsd : (if cur = [] then 47 :: part else cur ++ 47 :: part) = SD
      · rw [ensureDirsLoop_cons_sd part rest cur fs hp hsd] at hok ⊢
        rcases List.mem_cons.mp ha with rfl | ha'
        · exact Or.inl hsd
        · exact ih (if cur = [] then 47 :: part else cur ++ 47 :: part) fs hok a ha'
      · rcases hl : fsLookup fs (if cur = [] then 47 :: part else cur ++ 47 :: part)
            with _ | m
        · rcases hm : osMkdir fs (if cur = [] then 47 :: part else cur ++ 47 :: part)
              with _ | fs'
          · rw [ensureDirsLoop_cons_fail part rest cur fs hp hsd hl hm] at hok
            simp at hok
          · rw [ensureDirsLoop_cons_mkdir part rest cur fs fs' hp hsd hl hm] at hok ⊢
            obtain ⟨hfs', -⟩ := osMkdir_some hm
            have hcur' : fsLookup fs'
                (if cur = [] then 47 :: part else cur ++ 47 :: part) = some FsNode.dir := by
              rw [hfs', fsLookup_cons, if_pos rfl]
            rcases List.mem_cons.mp ha with rfl | ha'
            · right
              have hres := ensureDirsLoop_preserve rest
                (if cur = [] then 47 :: part else cur ++ 47 :: part) fs' _ _ hcur'
              exact ⟨by rw [hres]; rfl, fun _ => hres⟩
            · rcases ih (if cur = [] then 47 :: part else cur ++ 47 :: part) fs' hok a ha'
                  with hsd' | ⟨hsome, hdir⟩
              · exact Or.inl hsd'
              · right
                refine ⟨hsome, fun hnone => ?_⟩
                by_cases hac : a = (if cur = [] then 47 :: part else cur ++ 47 :: part)
                · rw [hac]
                  exact ensureDirsLoop_preserve rest
                    (if cur = [] then 47 :: part else cur ++ 47 :: part) fs' _ _ hcur'
                · refine hdir ?_
                  rw [hfs', fsLookup_cons]
                  rw [if_neg (fun he => hac he.symm)]
                  exact hnone
        · rw [ensureDirsLoop_cons_found part rest cur fs m hp hsd hl] at hok ⊢
          rcases List.mem_cons.mp ha with rfl | ha'
          · right
            have hres := ensureDirsLoop_preserve rest
              (if cur = [] then 47 :: part else cur ++ 47 :: part) fs _ _ hl
            refine ⟨by rw [hres]; rfl, fun hnone => ?_⟩
            rw [hnone] at hl
            exact absurd hl (by simp)
          · exact ih (if cur = [] then 47 :: part else cur ++ 47 :: part) fs hok a ha'

/-- Every entry the loop changes is one of the accumulated prefixes. -/
theorem ensureDirsLoop_changed :
    ∀ (parts : List Bytes) (cur : Bytes) (fs : Fs) (k : Bytes),
      fsLookup (ensureDirsLoop parts cur fs).2 k ≠ fsLookup fs k →
      k ∈ accumKeys parts cur := by
  intro parts
  induction parts with
  | nil => intro cur fs k hk; exact absurd rfl hk
  | cons part rest ih =>
    intro cur fs k hk
    by_cases hp : part = []
    · subst hp
      rw [ensureDirsLoop_cons_empty] at hk
      rw [accumKeys_cons_empty]
      exact ih cur fs k hk
    · rw [accumKeys_cons part rest cur hp]
      by_cases hsd : (if cur = [] then 47 :: part else cur ++ 47 :: part) = SD
      · rw [ensureDirsLoop_cons_sd part rest cur fs hp hsd] at hk
        exact List.mem_cons.mpr (Or.inr
          (ih (if cur = [] then 47 :: part else cur ++ 47 :: part) fs k hk))
      · rcases hl : fsLookup fs (if cur = [] then 47 :: part else cur ++ 47 :: part)
            with _ | m
        · rcases hm : osMkdir fs (if cur = [] then 47 :: part else cur ++ 47 :: part)
              with _ | fs'
          · rw [ensureDirsLoop_cons_fail part rest cur fs hp hsd hl hm] at hk
            exact absurd rfl hk
          · rw [ensureDirsLoop_cons_mkdir part rest cur fs fs' hp hsd hl hm] at hk
            by_cases hkc : k = (if cur = [] then 47 :: part else cur ++ 47 :: part)
            · exact List.mem_cons.mpr (Or.inl hkc)
            · refine List.mem_cons.mpr (Or.inr
                (ih (if cur = [] then 47 :: part else cur ++ 47 :: part) fs' k ?_))
              intro heq
              refine hk ?_
              rw [heq]
              obtain ⟨hfs', -⟩ := osMkdir_some hm
              rw [hfs', fsLookup_cons]
              rw [if_neg (fun he => hkc he.symm)]
        · rw [ensureDirsLoop_cons_found part rest cur fs m hp hsd hl] at hk
          exact List.mem_cons.mpr (Or.inr
            (ih (if cur = [] then 47 :: part else cur ++ 47 :: part) fs k hk))

/-- Length bound for the accumulated prefixes. -/
theorem accumKeys_len :
    ∀ (parts : List Bytes) (cur : Bytes) (a : Bytes),
      a ∈ accumKeys parts cur → a.length ≤ cur.length + segsLen parts := by
  intro parts
  induction parts with
  | nil => intro cur a ha; simp [accumKeys] at ha
  | cons part rest ih =>
    intro cur a ha
    by_cases hp : part = []
    · subst hp
      rw [accumKeys_cons_empty] at ha
      have := ih cur a ha
      simp [segsLen]
      omega
    · rw [accumKeys_cons part rest cur hp] at ha
      have hclen : (if cur = [] then 47 :: part else cur ++ 47 :: part).length
          = cur.length + 1 + part.length := by
        split
        · rename_i hc
          simp [hc]
          omega
        · simp
          omega
      rcases List.mem_cons.mp ha with rfl | ha'
      · rw [hclen]
        simp [segsLen]
        omega
      · have := ih _ a ha'
        rw [hclen] at this
        simp [segsLen] at this ⊢
        omega

/-- Full specification of a successful `ensure_directory_exists` on a
`/sd`-anchored path: the walked ancestors exist afterwards (created as
directories when absent before), nothing outside them changes, and every
walked ancestor is strictly shorter than the path itself. -/
theorem ensureDirectoryExists_spec (q : Bytes) (fs : Fs)
    (hsh : ∃ t, q = 47 :: 115 :: 100 :: t)
    (hok : (ensureDirectoryExists q fs).1 = true) :
    (∀ a ∈ ancestorsOf q,
        a = SD ∨ ((fsLookup (ensureDirectoryExists q fs).2 a).isSome = true
          ∧ (fsLookup fs a = none →
              fsLookup (ensureDirectoryExists q fs).2 a = some FsNode.dir)))
    ∧ (∀ k, fsLookup (ensureDirectoryExists q fs).2 k ≠ fsLookup fs k → k ∈ ancestorsOf q)
    ∧ (∀ a ∈ ancestorsOf q, a.length < q.length) := by
  obtain ⟨t, rfl⟩ := hsh
  obtain ⟨s, r, hst, hsp⟩ := split_sd_tail t
  have hq : pySplitSlash (47 :: 115 :: 100 :: t) = [] :: (115 :: 100 :: s) :: r := by
    show [] :: pySplitSlash (115 :: 100 :: t) = _
    rw [hsp]
  rcases r with _ | ⟨z, r'⟩
  · have hdp : pyJoinSlash (dropLastSeg (pySplitSlash (47 :: 115 :: 100 :: t))) = [] := by
      rw [hq]
      rfl
    have hens : ensureDirectoryExists (47 :: 115 :: 100 :: t) fs = (true, fs) := by
      unfold ensureDirectoryExists
      rw [hdp]
      simp
    have hanc : ancestorsOf (47 :: 115 :: 100 :: t) = [] := by
      unfold ancestorsOf
      rw [hdp]
      simp
    rw [hens, hanc]
    exact ⟨fun a ha => absurd ha (List.not_mem_nil a),
      fun k hk => absurd rfl hk,
      fun a ha => absurd ha (List.not_mem_nil a)⟩
  · have hdrop : dropLastSeg ([] :: (115 :: 100 :: s) :: z :: r')
        = [] :: (115 :: 100 :: s) :: dropLastSeg (z :: r') := rfl
    obtain ⟨w, hw⟩ := joinSlash_cons_shape (115 :: 100 :: s) (dropLastSeg (z :: r'))
    have hjoin : pyJoinSlash ([] :: (115 :: 100 :: s) :: dropLastSeg (z :: r'))
        = 47 :: 115 :: 100 :: (s ++ w) := by
      show [] ++ 47 :: pyJoinSlash ((115 :: 100 :: s) :: dropLastSeg (z :: r')) = _
      rw [hw]
      rfl
    have hdp : pyJoinSlash (dropLastSeg (pySplitSlash (47 :: 115 :: 100 :: t)))
        = 47 :: 115 :: 100 :: (s ++ w) := by
      rw [hq, hdrop, hjoin]
    have hlen_dp : (47 :: 115 :: 100 :: (s ++ w) : Bytes).length
        < (47 :: 115 :: 100 :: t : Bytes).length := by
      have h1 : pyJoinSlash (pySplitSlash (47 :: 115 :: 100 :: t)) = 47 :: 115 :: 100 :: t :=
        join_split_id _
      rw [hq, joinSlash_decomp, hdrop, hjoin] at h1
      have h2 := congrArg List.length h1
      simp [List.length_append] at h2
      simp
      omega
    have hcond : ¬((47 :: 115 :: 100 :: (s ++ w) : Bytes) = []
        ∨ (47 :: 115 :: 100 :: (s ++ w) : Bytes) = 47 :: 115 :: 100 :: t) := by
      rintro (hc | hc)
      · simp at hc
      · rw [hc] at hlen_dp
        exact lt_irrefl _ hlen_dp
    have hsw : startsWithB (47 :: 115 :: 100 :: (s ++ w)) SD = true := startsWithB_sd_cons _
    have hens : ensureDirectoryExists (47 :: 115 :: 100 :: t) fs
        = ensureDirsLoop (pySplitSlash (47 :: 115 :: 100 :: (s ++ w))) [] fs := by
      unfold ensureDirectoryExists
      rw [hdp]
      rw [if_neg hcond, if_pos hsw]
    have hanc : ancestorsOf (47 :: 115 :: 100 :: t)
        = accumKeys (pySplitSlash (47 :: 115 :: 100 :: (s ++ w))) [] := by
      unfold ancestorsOf
      rw [hdp]
      rw [if_neg hcond, if_pos hsw]
    have haccum : accumKeys (pySplitSlash (47 :: 115 :: 100 :: (s ++ w))) []
        = accumKeys (pySplitSlash (115 :: 100 :: (s ++ w))) [] := by
      rw [show pySplitSlash (47 :: 115 :: 100 :: (s ++ w))
            = [] :: pySplitSlash (115 :: 100 :: (s ++ w)) from rfl,
          accumKeys_cons_empty]
    rw [hens] at hok
    refine ⟨?_, ?_, ?_⟩
    · intro a ha
      rw [hanc] at ha
      rw [hens]
      exact ensureDirsLoop_ancestors _ [] fs hok a ha
    · intro k hk
      rw [hens] at hk
      rw [hanc]
      exact ensureDirsLoop_changed _ [] fs k hk
    · intro a ha
      rw [hanc, haccum] at ha
      have hb := accumKeys_len _ [] a ha
      rw [segsLen_split] at hb
      simp at hb ⊢
      have := hlen_dp
      simp at this
      omega

/-- C10 amended: after a successful `MakeDir(p)`, every walked proper
ancestor of the normalized path exists — and was created as a directory when
it was absent initially, while a pre-existing entry (even a regular file,
`c10_counterexample`) is merely skipped by the existence check; the handler
changes nothing outside those ancestors; and the final path component is
never created — the entry at the normalized `p` itself stays absent. -/
theorem c10_amended (p : Bytes) (fs fs' : Fs)
    (h : makeDirectory p fs = ([[5, 0]], fs')) :
    (∀ a ∈ ancestorsOf (normSd p),
        a = SD ∨ ((fsLookup fs' a).isSome = true
          ∧ (fsLookup fs a = none → fsLookup fs' a = some FsNode.dir)))
    ∧ (∀ k, fsLookup fs' k ≠ fsLookup fs k → k ∈ ancestorsOf (normSd p))
    ∧ (fsLookup fs (normSd p) = none → fsLookup fs' (normSd p) = none) := by
  have he : ensureDirectoryExists (normSd p) fs = (true, fs') := by
    rcases hE : ensureDirectoryExists (normSd p) fs with ⟨b, f2⟩
    cases b
    · simp [makeDirectory, hE, errResp] at h
    · have h2 := h
      simp [makeDirectory, hE] at h2
      rw [← h2]
  have hspec := ensureDirectoryExists_spec (normSd p) fs (normSd_shape p) (by rw [he])
  rw [he] at hspec
  obtain ⟨hA, hB, hC⟩ := hspec
  refine ⟨fun a ha => hA a ha, fun k hk => hB k hk, fun hnone => ?_⟩
  rcases hl : fsLookup fs' (normSd p) with _ | n
  · rfl
  · exfalso
    have hchanged : fsLookup fs' (normSd p) ≠ fsLookup fs (normSd p) := by
      rw [hl, hnone]
      simp
    exact lt_irrefl _ (hC _ (hB _ hchanged))

/-- Witness for C10: `MakeDir("/sd/a/b")` over a filesystem holding only
`/sd` succeeds, creates the parent `/sd/a`, and leaves `/sd/a/b` itself
absent. -/
theorem c10_witness :
    fsLookup [(strBytes "/sd/a", FsNode.dir), (SD, FsNode.dir)]
        (normSd (strBytes "/sd/a/b")) = none :=
  (c10_amended (strBytes "/sd/a/b") [(SD, FsNode.dir)]
      [(strBytes "/sd/a", FsNode.dir), (SD, FsNode.dir)] (by decide)).2.2 (by decide)

end PicoBLE
